import Mathlib

/-!
Shallow embedding of the core pipeline of `update-dorks.py` (GHDB scraper):
string helpers, the categorized collector loop, the resilient fetcher and
the CSV export, together with theorems checking the specification's claims.

HTML-anchor extraction (BeautifulSoup) is abstracted: a raw row carries
`anchorText`, the string content `str(a.contents[0])` of the first anchor of
its (tab-normalized) `url_title` fragment, or `none` when the fragment has no
anchor or the anchor has no contents.  All places in the source that re-parse
`url_title` (category files, CSV lookup) see the same normalized fragment, so
they are modelled by the same `anchorText` field.
-/

namespace UpdateDorks

/-- Python `str.strip()` whitespace set (ASCII part, which is all the
pipeline ever strips here). -/
def isPySpace (c : Char) : Bool :=
  c = ' ' || c = '\t' || c = '\n' || c = '\x0d' || c = '\x0b' || c = '\x0c'

/-- `s.strip()` on the character list: drop leading and trailing whitespace. -/
def stripChars (l : List Char) : List Char :=
  ((l.dropWhile isPySpace).reverse.dropWhile isPySpace).reverse

/-- Python `str.strip()` as used throughout `update-dorks.py`. -/
def pythonStrip (s : String) : String :=
  String.mk (stripChars s.toList)

/-- Characters kept verbatim by the regex `[^a-z0-9._-]+` in `_safe_filename`. -/
def goodChar (c : Char) : Bool :=
  ('a' ≤ c && c ≤ 'z') || ('0' ≤ c && c ≤ '9') || c = '.' || c = '_' || c = '-'

/-- `re.sub(r"[^a-z0-9._-]+", "_", ·)`: each maximal run of characters outside
the class becomes a single underscore.  The boolean argument records whether
the previous character was part of such a run (so the underscore is emitted
only at the start of a run). -/
def collapseGo : Bool → List Char → List Char
  | _, [] => []
  | inRun, c :: cs =>
    if goodChar c then c :: collapseGo false cs
    else if inRun then collapseGo true cs
    else '_' :: collapseGo true cs

/-- `_safe_filename` from `update-dorks.py` lines 36-43: strip, replace the
path separator, lowercase, spaces to underscores, collapse characters outside
`[a-z0-9._-]`, truncate to 120 characters, fall back to `"category"`.
(`os.sep` is `"/"` on the POSIX platforms the tool targets, so the two
separator replacements coincide; `.lower()` is modelled on ASCII letters.) -/
def _safe_filename (name : String) : String :=
  let l := stripChars name.toList
  let l := l.map (fun c => if c = '/' then '_' else c)
  let l := l.map Char.toLower
  let l := l.map (fun c => if c = ' ' then '_' else c)
  let l := collapseGo false l
  let l := l.take 120
  if l.isEmpty then "category" else String.mk l

/-- `_ordered_dedupe` from `update-dorks.py` lines 45-47:
`list(OrderedDict.fromkeys(items))` keeps the first occurrence of each string,
in first-occurrence order.  Modelled as the left fold that inserts a key only
when it is not yet present. -/
def _ordered_dedupe (items : List String) : List String :=
  items.foldl (fun acc x => if acc.contains x then acc else acc ++ [x]) []

/-- Specification-side description of order-preserving deduplication: walk the
list keeping an element iff it has not been seen before (`seen` accumulates
the elements already kept). -/
def specDedupeFrom (seen : List String) : List String → List String
  | [] => []
  | x :: xs =>
    if seen.contains x then specDedupeFrom seen xs
    else x :: specDedupeFrom (x :: seen) xs

/-! ### Data model: rows, categories, collector state -/

/-- One raw row of the paginated JSON response.  `anchorText` abstracts the
BeautifulSoup step (`str(a.contents[0])` of the first anchor of the
tab-normalized `url_title`, `none` when there is no anchor or no contents).
`catId` is the parsed `category.cat_id` (`none` when missing or non-numeric,
lines 165-168); `catName` is `category.cat_title` (`none` when missing or
null; an empty string is possible and handled by the `or` fallback). -/
structure Row where
  anchorText : Option String
  catId : Option Int
  catName : Option String
deriving Repr, DecidableEq

/-- `cid = int(cat.get("cat_id", -1))` with the `except` fallback to `-1`. -/
def effCid (r : Row) : Int :=
  r.catId.getD (-1)

/-- `cname = cat.get("cat_title", f"category_{cid}") or f"category_{cid}"`:
missing, null or empty titles fall back to `category_<cid>`. -/
def effCname (r : Row) : String :=
  let dflt := "category_" ++ toString (effCid r)
  match r.catName with
  | some s => if s = "" then dflt else s
  | none => dflt

/-- The dork string a row yields on re-parsing: stripped anchor text, `none`
when the row has no usable anchor. -/
def rowText (r : Row) : Option String :=
  r.anchorText.map pythonStrip

/-- One value of `category_dict`: the display name fixed at creation and the
ordered bucket of raw rows appended to this category. -/
structure CatEntry where
  cid : Int
  category_name : String
  dorks : List Row
deriving Repr, DecidableEq

/-- `category_dict` is modelled as a list of entries in insertion
(first-seen) order, which is exactly the iteration order of a Python dict. -/
def catsDorks (cats : List CatEntry) (cid : Int) : List Row :=
  match cats.find? (fun c => c.cid == cid) with
  | some c => c.dorks
  | none => []

/-- Lines 171-176: create the bucket on first sight of `cid` (with the name
seen then), and append the row to the bucket. -/
def addToCat (cats : List CatEntry) (cid : Int) (cname : String) (r : Row) :
    List CatEntry :=
  if cats.any (fun c => c.cid == cid) then
    cats.map (fun c => if c.cid == cid then { c with dorks := c.dorks ++ [r] } else c)
  else
    cats ++ [⟨cid, cname, [r]⟩]

/-- The mutable collector state: `extracted_dorks` (pre-dedupe) and
`category_dict`. -/
structure CState where
  extracted : List String
  cats : List CatEntry
deriving Repr, DecidableEq

/-- Lines 151-176, the body of `for dork in rows`: skip rows without a usable
anchor; append the stripped text to `extracted_dorks` when non-empty; append
the row to its category's bucket in every case where the anchor exists. -/
def processRow (st : CState) (r : Row) : CState :=
  match r.anchorText with
  | none => st
  | some raw =>
    let text := pythonStrip raw
    let extracted := if text = "" then st.extracted else st.extracted ++ [text]
    ⟨extracted, addToCat st.cats (effCid r) (effCname r) r⟩

/-! ### Pages and the collector loop -/

/-- One parsed page body: the reported totals and the `data` rows array
(`data.get("data", [])`, absent modelled as `[]`). -/
structure Page where
  recordsTotal : Option Int
  recordsFiltered : Option Int
  data : List Row
deriving Repr, DecidableEq

/-- Python truthiness fallback `a or b` on an optional integer: `None` and
`0` both fall through. -/
def orFalsy (a : Option Int) (b : Int) : Int :=
  match a with
  | some x => if x = 0 then b else x
  | none => b

/-- Line 141: `int(data.get("recordsTotal") or data.get("recordsFiltered") or 0)`. -/
def parseTotal (p : Page) : Int :=
  orFalsy p.recordsTotal (orFalsy p.recordsFiltered 0)

/-- Line 182: `if max_pages and pages >= max_pages` — `None` and `0` are both
falsy, so neither ever triggers the cap. -/
def capReached (maxPages : Option Int) (pages : Nat) : Bool :=
  match maxPages with
  | some m => m ≠ 0 && m ≤ (pages : Int)
  | none => false

/-- Observable outcome of a collection run: the reported total, the (deduped,
for `runCollector`) extracted list, the category map, the final `pages`
counter and the list of offsets passed to `fetch_page`, in request order. -/
structure RunResult where
  total : Int
  extracted : List String
  cats : List CatEntry
  pages : Nat
  offsets : List Nat
deriving Repr, DecidableEq

/-- The `while True` loop of `retrieve_google_dorks` (lines 133-188), with the
successive successful page bodies supplied as a list: each iteration consumes
one body (one `fetch_page` call).  Running out of supplied bodies before a
`break` models a fetch failure propagating out (`.error ()`). -/
def collectGo (maxPages : Option Int) :
    List Page → Nat → Nat → Option Int → CState → List Nat →
    Except Unit RunResult
  | [], _, _, _, _, _ => .error ()
  | p :: rest, start, pages, total?, st, offs =>
    let offs' := offs ++ [start]
    let t := total?.getD (parseTotal p)
    if total?.isNone && t = 0 then
      -- line 142: no records reported; stop with nothing ingested
      .ok ⟨t, st.extracted, st.cats, pages, offs'⟩
    else if p.data.isEmpty then
      -- line 147: no more rows; stop
      .ok ⟨t, st.extracted, st.cats, pages, offs'⟩
    else
      let st' := p.data.foldl processRow st
      let start' := start + p.data.length
      let pages' := pages + 1
      if capReached maxPages pages' then
        .ok ⟨t, st'.extracted, st'.cats, pages', offs'⟩
      else if t ≤ (start' : Int) then
        -- line 185: offset reached the reported total
        .ok ⟨t, st'.extracted, st'.cats, pages', offs'⟩
      else
        collectGo maxPages rest start' pages' (some t) st' offs'

/-- `retrieve_google_dorks`' collection phase followed by the line-191 dedupe:
start at offset 0, page counter 0, no total yet, empty state. -/
def runCollector (responses : List Page) (maxPages : Option Int) :
    Except Unit RunResult :=
  match collectGo maxPages responses 0 0 none ⟨[], []⟩ [] with
  | .ok r => .ok { r with extracted := _ordered_dedupe r.extracted }
  | .error e => .error e

/-- Lines 200-205: the per-category `.dorks` file contents for one bucket —
one line per row whose re-parse still finds an anchor, holding the stripped
text (possibly empty, i.e. a blank line). -/
def categoryFileLines (rows : List Row) : List String :=
  rows.filterMap rowText

/-! ### CSV export (lines 224-244) -/

/-- `dork_to_cat[s]` lookup: first entry with the key, projected to the pair. -/
def lookupCat (m : List (String × Int × String)) (s : String) :
    Option (Int × String) :=
  (m.find? (fun e => e.1 == s)).map (fun e => e.2)

/-- The scan order of the `dork_to_cat` loop: categories in `category_dict`
insertion order, each category's rows in bucket order, tagged with the
category's id and name. -/
def catPairs (cats : List CatEntry) : List (Int × String × Row) :=
  cats.flatMap (fun c => c.dorks.map (fun r => (c.cid, c.category_name, r)))

/-- Lines 232-241 as a recursion over the flattened scan: insert
`s ↦ (cid, cname)` only when the re-parsed text is non-empty and the key is
not yet present ("first occurrence" in this scan order). -/
def buildGo (m : List (String × Int × String)) :
    List (Int × String × Row) → List (String × Int × String)
  | [] => m
  | (cid, cname, r) :: rest =>
    let m' :=
      match rowText r with
      | none => m
      | some s =>
        if s ≠ "" && (lookupCat m s).isNone then m ++ [(s, cid, cname)] else m
    buildGo m' rest

/-- The `dork_to_cat` dictionary built by the CSV export. -/
def dork_to_cat (cats : List CatEntry) : List (String × Int × String) :=
  buildGo [] (catPairs cats)

/-- Lines 242-244: one CSV data row per entry of the (deduped) extracted
list, attributed via `dork_to_cat` with default `(-1, "unknown")`. -/
def csvDataRows (extracted : List String) (cats : List CatEntry) :
    List (String × Int × String) :=
  extracted.map (fun d =>
    match lookupCat (dork_to_cat cats) d with
    | some (cid, cname) => (d, cid, cname)
    | none => (d, -1, "unknown"))

/-- Spec-side: the category of the first pair of a scan whose row's
re-parsed text equals `s`. -/
def firstCategoryIn (pairs : List (Int × String × Row)) (s : String) :
    Option (Int × String) :=
  (pairs.find? (fun q => rowText q.2.2 == some s)).map (fun q => (q.1, q.2.1))

/-- Spec-side: the category a dork string is attributed to by the grouped
scan the code performs (categories in first-seen order, rows in bucket
order). -/
def groupedFirstCategory (cats : List CatEntry) (s : String) :
    Option (Int × String) :=
  firstCategoryIn (catPairs cats) s

/-- Spec-side, from the claim's words: the category of the first row of the
ORIGINAL (non-deduplicated) row scan whose extracted text equals `s`. -/
def rowScanFirstCategory (rows : List Row) (s : String) :
    Option (Int × String) :=
  (rows.find? (fun r => rowText r == some s)).map (fun r => (effCid r, effCname r))

/-! ### Resilient fetcher (`fetch_page`, lines 101-131) -/

/-- Outcome of one HTTP request of the stubbed network: a parsed body, a TLS
verification failure (`requests.exceptions.SSLError`), or a transient failure
(`requests.RequestException` / `ValueError` — network error, non-2xx status
via `raise_for_status`, or unparseable body; `code` distinguishes
failures so "the last error" is observable). -/
inductive ReqResult where
  | ok (body : Page)
  | ssl
  | transient (code : Nat)
deriving Repr, DecidableEq

/-- The kind of error remembered in `last_err`. -/
inductive FetchErrKind where
  | ssl
  | transient (code : Nat)
deriving Repr, DecidableEq

/-- How `fetch_page` fails: an `SSLError` re-raised immediately (line 113), or
the line-131 `RuntimeError` after exhausting attempts, carrying `last_err`. -/
inductive FetchFail where
  | tlsRaised
  | exhausted (last : Option FetchErrKind)
deriving Repr, DecidableEq

/-- What a `fetch_page` call did: its result, and the `verify` flag of every
request it issued, in order. -/
structure FetchOut where
  result : Except FetchFail Page
  requests : List Bool
deriving Repr

/-- The `for attempt in range(1, retry_attempts + 1)` loop.  `net k` is the
stubbed outcome of the k-th request this call issues; `n` counts the attempts
left; `log` accumulates the `verify` flags.  The primary request uses
`verify = not insecure` (line 106); on `SSLError` with `insecure` unset the
error is re-raised at once (line 113), otherwise one immediate `verify=False`
request is made (line 117) and any failure of it becomes `last_err`. -/
def fetchGo (insecure : Bool) (net : Nat → ReqResult) :
    Nat → Nat → Option FetchErrKind → List Bool → FetchOut
  | 0, _, lastErr, log => ⟨.error (.exhausted lastErr), log⟩
  | n + 1, k, _, log =>
    let log1 := log ++ [!insecure]
    match net k with
    | .ok body => ⟨.ok body, log1⟩
    | .ssl =>
      if insecure then
        let log2 := log1 ++ [false]
        match net (k + 1) with
        | .ok body => ⟨.ok body, log2⟩
        | .ssl => fetchGo insecure net n (k + 2) (some .ssl) log2
        | .transient c => fetchGo insecure net n (k + 2) (some (.transient c)) log2
      else ⟨.error .tlsRaised, log1⟩
    | .transient c => fetchGo insecure net n (k + 1) (some (.transient c)) log1

/-- `fetch_page` with a stubbed network: `retry_attempts` attempts starting
with no `last_err` and an empty request log. -/
def fetch_page (insecure : Bool) (retry_attempts : Nat) (net : Nat → ReqResult) :
    FetchOut :=
  fetchGo insecure net retry_attempts 0 none []

/-! ### Helper lemmas: deduplication -/

theorem specDedupeFrom_congr (l : List String) :
    ∀ s₁ s₂ : List String, (∀ y, y ∈ s₁ ↔ y ∈ s₂) →
    specDedupeFrom s₁ l = specDedupeFrom s₂ l := by
  induction l with
  | nil => intro s₁ s₂ _; rfl
  | cons x xs ih =>
    intro s₁ s₂ h
    have hc : s₁.contains x = s₂.contains x := by
      by_cases hx : x ∈ s₁
      · have hx₂ : x ∈ s₂ := (h x).mp hx
        simp [List.elem_iff, hx, hx₂]
      · have hx₂ : x ∉ s₂ := fun hm => hx ((h x).mpr hm)
        simp [List.elem_iff, hx, hx₂]
    simp only [specDedupeFrom, hc]
    by_cases hx : s₂.contains x = true
    · rw [if_pos hx, if_pos hx]
      exact ih s₁ s₂ h
    · rw [if_neg hx, if_neg hx]
      have : ∀ y, y ∈ x :: s₁ ↔ y ∈ x :: s₂ := by
        intro y; simp [List.mem_cons, h y]
      rw [ih (x :: s₁) (x :: s₂) this]

theorem dedupe_foldl_eq (l : List String) :
    ∀ acc : List String,
      l.foldl (fun acc x => if acc.contains x then acc else acc ++ [x]) acc =
        acc ++ specDedupeFrom acc l := by
  induction l with
  | nil => intro acc; simp [specDedupeFrom]
  | cons x xs ih =>
    intro acc
    simp only [List.foldl_cons, specDedupeFrom]
    by_cases hx : acc.contains x = true
    · rw [if_pos hx, if_pos hx]
      exact ih acc
    · rw [if_neg hx, if_neg hx]
      rw [ih (acc ++ [x])]
      have hmem : ∀ y, y ∈ acc ++ [x] ↔ y ∈ x :: acc := by
        intro y; simp [List.mem_append, List.mem_cons, or_comm]
      rw [specDedupeFrom_congr xs (acc ++ [x]) (x :: acc) hmem]
      simp

theorem ordered_dedupe_eq_spec (l : List String) :
    _ordered_dedupe l = specDedupeFrom [] l := by
  unfold _ordered_dedupe
  rw [dedupe_foldl_eq l []]
  rfl

theorem mem_specDedupeFrom (l : List String) :
    ∀ (seen : List String) (x : String),
      x ∈ specDedupeFrom seen l ↔ x ∈ l ∧ x ∉ seen := by
  induction l with
  | nil => intro seen x; simp [specDedupeFrom]
  | cons y ys ih =>
    intro seen x
    simp only [specDedupeFrom]
    by_cases hy : seen.contains y = true
    · have hymem : y ∈ seen := List.elem_iff.mp hy
      rw [if_pos hy, ih seen x]
      constructor
      · rintro ⟨hx, hns⟩; exact ⟨List.mem_cons_of_mem _ hx, hns⟩
      · rintro ⟨hx, hns⟩
        rcases List.mem_cons.mp hx with rfl | hx
        · exact absurd hymem hns
        · exact ⟨hx, hns⟩
    · have hynmem : y ∉ seen := fun hm => hy (List.elem_iff.mpr hm)
      rw [if_neg hy]
      simp only [List.mem_cons, ih (y :: seen) x, List.mem_cons]
      constructor
      · rintro (rfl | ⟨hx, hns⟩)
        · exact ⟨Or.inl rfl, hynmem⟩
        · exact ⟨Or.inr hx, fun hm => hns (Or.inr hm)⟩
      · rintro ⟨rfl | hx, hns⟩
        · exact Or.inl rfl
        · by_cases hxy : x = y
          · exact Or.inl hxy
          · exact Or.inr ⟨hx, fun hm => (by
              rcases hm with rfl | hm
              · exact hxy rfl
              · exact hns hm)⟩

theorem nodup_specDedupeFrom (l : List String) :
    ∀ seen : List String, (specDedupeFrom seen l).Nodup := by
  induction l with
  | nil => intro seen; simp [specDedupeFrom]
  | cons y ys ih =>
    intro seen
    simp only [specDedupeFrom]
    by_cases hy : seen.contains y = true
    · rw [if_pos hy]; exact ih seen
    · rw [if_neg hy]
      refine List.nodup_cons.mpr ⟨?_, ih (y :: seen)⟩
      intro hmem
      exact ((mem_specDedupeFrom ys (y :: seen) y).mp hmem).2 (List.mem_cons_self y seen)

theorem nodup_ordered_dedupe (l : List String) : (_ordered_dedupe l).Nodup := by
  rw [ordered_dedupe_eq_spec]; exact nodup_specDedupeFrom l []

theorem mem_ordered_dedupe (l : List String) (x : String) :
    x ∈ _ordered_dedupe l ↔ x ∈ l := by
  rw [ordered_dedupe_eq_spec, mem_specDedupeFrom]
  simp

/-! ### Claim theorems -/

/-- C2: `_ordered_dedupe` returns each distinct string of its input exactly
once, in order of first appearance (exact case-sensitive equality): it equals
the keep-first-occurrence walk `specDedupeFrom []`, strings of the input have
count 1 in the output, strings not in the input have count 0, and
`["a","b","a","c","b"]` yields `["a","b","c"]`. -/
theorem ordered_dedupe_correct :
    (∀ l : List String, _ordered_dedupe l = specDedupeFrom [] l) ∧
    (∀ (l : List String) (x : String), x ∈ l → (_ordered_dedupe l).count x = 1) ∧
    (∀ (l : List String) (x : String), x ∉ l → (_ordered_dedupe l).count x = 0) ∧
    _ordered_dedupe ["a", "b", "a", "c", "b"] = ["a", "b", "c"] := by
  refine ⟨ordered_dedupe_eq_spec, ?_, ?_, by decide⟩
  · intro l x hx
    exact List.count_eq_one_of_mem (nodup_ordered_dedupe l)
      ((mem_ordered_dedupe l x).mpr hx)
  · intro l x hx
    exact List.count_eq_zero.mpr (fun hm => hx ((mem_ordered_dedupe l x).mp hm))

/-- Witness for C2 at concrete inputs: "a" is in the example list and occurs
once in the output; "z" is absent and occurs zero times. -/
theorem ordered_dedupe_correct_witness :
    (_ordered_dedupe ["a", "b", "a", "c", "b"]).count "a" = 1 ∧
    (_ordered_dedupe ["a", "b", "a", "c", "b"]).count "z" = 0 :=
  ⟨ordered_dedupe_correct.2.1 ["a", "b", "a", "c", "b"] "a" (by decide),
   ordered_dedupe_correct.2.2.1 ["a", "b", "a", "c", "b"] "z" (by decide)⟩

theorem safe_filename_aux (l : List Char) :
    (if (l.take 120).isEmpty = true then "category" else String.mk (l.take 120)) ≠ "" := by
  by_cases he : (l.take 120).isEmpty = true
  · rw [if_pos he]; decide
  · rw [if_neg he]
    intro hc
    have hnil : l.take 120 = [] := congrArg String.data hc
    rw [hnil] at he
    exact he rfl

theorem safe_filename_len_aux (l : List Char) :
    (if (l.take 120).isEmpty = true then "category" else String.mk (l.take 120)).length
      ≤ 120 := by
  by_cases he : (l.take 120).isEmpty = true
  · rw [if_pos he]; decide
  · rw [if_neg he]
    exact List.length_take_le 120 l

/-- C8: `_safe_filename` lowercases, maps spaces to underscores, collapses
characters outside `[a-z0-9._-]` to underscore, truncates to 120 characters
and falls back to `"category"` when empty; `"File Containing Passwords"`
yields the filename `file_containing_passwords.dorks`, and no name ever
yields an empty filename. -/
theorem safe_filename_correct :
    _safe_filename "File Containing Passwords" ++ ".dorks" =
      "file_containing_passwords.dorks" ∧
    _safe_filename "" = "category" ∧
    (∀ name : String, _safe_filename name ≠ "") ∧
    (∀ name : String, (_safe_filename name).length ≤ 120) := by
  refine ⟨by decide, by decide, ?_, ?_⟩
  · intro name
    exact safe_filename_aux _
  · intro name
    exact safe_filename_len_aux _

/-- C5: a first page reporting a total of 0 stops the Collector after exactly
one page request (one offset, 0, was ever requested) with an empty catalog:
no extracted dorks, no categories. -/
theorem collector_zero_total_stops (p : Page) (rest : List Page)
    (mp : Option Int) (h : parseTotal p = 0) :
    runCollector (p :: rest) mp = .ok ⟨0, [], [], 0, [0]⟩ := by
  unfold runCollector collectGo
  simp [h, _ordered_dedupe]

/-- Witness for C5: a page with `recordsTotal = 0` and a row that is
consequently never ingested. -/
theorem collector_zero_total_stops_witness :
    runCollector [⟨some 0, some 0, [⟨some "x", some 1, some "A"⟩]⟩] none =
      .ok ⟨0, [], [], 0, [0]⟩ :=
  collector_zero_total_stops _ [] none (by decide)

theorem collectGo_none_continue (mp : Option Int) (p : Page) (rest : List Page)
    (start pages : Nat) (st : CState) (offs : List Nat)
    (ht0 : parseTotal p ≠ 0) (hrows : p.data ≠ [])
    (hcap : capReached mp (pages + 1) = false)
    (hlt : ¬ parseTotal p ≤ ((start + p.data.length : Nat) : Int)) :
    collectGo mp (p :: rest) start pages none st offs =
      collectGo mp rest (start + p.data.length) (pages + 1)
        (some (parseTotal p)) (p.data.foldl processRow st) (offs ++ [start]) := by
  simp only [collectGo, Option.getD_none, Option.isNone_none, Bool.true_and]
  rw [if_neg (by simpa using ht0),
    if_neg (by simpa [List.isEmpty_iff] using hrows),
    if_neg (by simp [hcap]), if_neg (by simpa using hlt)]

theorem collectGo_some_empty (mp : Option Int) (p : Page) (rest : List Page)
    (start pages : Nat) (t : Int) (st : CState) (offs : List Nat)
    (hp : p.data = []) :
    collectGo mp (p :: rest) start pages (some t) st offs =
      .ok ⟨t, st.extracted, st.cats, pages, offs ++ [start]⟩ := by
  simp only [collectGo, Option.getD_some, Option.isNone_some, Bool.false_and]
  rw [if_neg (by simp), if_pos (by simp [List.isEmpty_iff, hp])]

/-- C6: the Collector requests offset 0 first and advances the offset by the
number of rows received; when page 1 returns fewer rows than the reported
total and page 2 returns zero rows, it stops after the second request and the
catalog holds exactly the page-1 rows (state = folding `processRow` over
page 1 only, extracted list deduplicated). -/
theorem collector_advances_and_stops_on_empty (p₁ p₂ : Page) (t : Int)
    (ht : parseTotal p₁ = t) (ht0 : t ≠ 0)
    (hrows : p₁.data ≠ []) (hlt : (p₁.data.length : Int) < t)
    (hp₂ : p₂.data = []) :
    runCollector [p₁, p₂] none =
      .ok ⟨t, _ordered_dedupe ((p₁.data.foldl processRow ⟨[], []⟩).extracted),
           (p₁.data.foldl processRow ⟨[], []⟩).cats, 1,
           [0, p₁.data.length]⟩ := by
  unfold runCollector
  rw [collectGo_none_continue none p₁ [p₂] 0 0 ⟨[], []⟩ []
      (ht ▸ ht0) hrows (by simp [capReached]) (by rw [ht]; push_neg; omega)]
  simp only [Nat.zero_add, List.nil_append]
  rw [collectGo_some_empty none p₂ [] p₁.data.length 1 (parseTotal p₁)
      (p₁.data.foldl processRow ⟨[], []⟩) [0] hp₂, ht]
  simp

/-- Witness for C6: one page of two rows against a reported total of 3,
followed by an empty page. -/
theorem collector_advances_and_stops_on_empty_witness :
    runCollector [⟨some 3, none, [⟨some "x", some 1, some "A"⟩,
                                  ⟨some "y", some 2, some "B"⟩]⟩,
                  ⟨some 3, none, []⟩] none =
      .ok ⟨3, _ordered_dedupe (([⟨some "x", some 1, some "A"⟩,
             ⟨some "y", some 2, some "B"⟩] : List Row).foldl processRow
               ⟨[], []⟩).extracted,
           (([⟨some "x", some 1, some "A"⟩,
             ⟨some "y", some 2, some "B"⟩] : List Row).foldl processRow
               ⟨[], []⟩).cats, 1, [0, 2]⟩ :=
  collector_advances_and_stops_on_empty _ _ 3 (by decide) (by decide)
    (by decide) (by decide) (by decide)

theorem collectGo_total_fixed (mp : Option Int) (resp : List Page) :
    ∀ (start pages : Nat) (t : Int) (st : CState) (offs : List Nat)
      (r : RunResult),
      collectGo mp resp start pages (some t) st offs = .ok r → r.total = t := by
  induction resp with
  | nil =>
    intro start pages t st offs r h
    exact absurd h (by simp [collectGo])
  | cons p rest ih =>
    intro start pages t st offs r h
    simp only [collectGo, Option.getD_some, Option.isNone_some, Bool.false_and] at h
    rw [if_neg (by simp)] at h
    split at h
    · cases h; rfl
    · split at h
      · cases h; rfl
      · split at h
        · cases h; rfl
        · exact ih _ _ _ _ _ _ h

/-- C7: in any completed run the reported total of the result is exactly the
total parsed from the first successful page response — later pages never
reassign it, nor is it recomputed from locally extracted data. -/
theorem collector_total_set_once (p : Page) (rest : List Page)
    (mp : Option Int) (r : RunResult)
    (h : runCollector (p :: rest) mp = .ok r) : r.total = parseTotal p := by
  unfold runCollector at h
  cases hr : collectGo mp (p :: rest) 0 0 none ⟨[], []⟩ [] with
  | error e => rw [hr] at h; cases h
  | ok r₀ =>
    rw [hr] at h
    cases h
    show r₀.total = parseTotal p
    simp only [collectGo, Option.getD_none, Option.isNone_none, Bool.true_and] at hr
    split at hr
    · cases hr
      rfl
    · split at hr
      · cases hr; rfl
      · split at hr
        · cases hr; rfl
        · split at hr
          · cases hr; rfl
          · exact collectGo_total_fixed mp rest _ _ _ _ _ _ hr

/-- Witness for C7: a run over one page reporting total 1 with one row. -/
theorem collector_total_set_once_witness :
    (RunResult.mk 1 ["x"] [⟨1, "A", [⟨some "x", some 1, some "A"⟩]⟩] 1 [0]).total
      = parseTotal ⟨some 1, none, [⟨some "x", some 1, some "A"⟩]⟩ :=
  collector_total_set_once ⟨some 1, none, [⟨some "x", some 1, some "A"⟩]⟩ []
    none _ (by rfl)

theorem capReached_some_zero (n : Nat) : capReached (some 0) n = false := by
  simp [capReached]

theorem collectGo_maxPages_zero (resp : List Page) :
    ∀ (start pages : Nat) (total? : Option Int) (st : CState) (offs : List Nat),
      collectGo (some 0) resp start pages total? st offs =
        collectGo none resp start pages total? st offs := by
  induction resp with
  | nil => intro start pages total? st offs; rfl
  | cons p rest ih =>
    intro start pages total? st offs
    simp only [collectGo, capReached_some_zero]
    rw [show capReached none (pages + 1) = false from rfl]
    split
    · rfl
    · split
      · rfl
      · rw [ih]

/-- C9: a max-pages cap of 0 behaves exactly like no cap at all — the run is
identical to the uncapped run on every sequence of page responses. -/
theorem collector_maxPages_zero_no_cap (resp : List Page) :
    runCollector resp (some 0) = runCollector resp none := by
  unfold runCollector
  rw [collectGo_maxPages_zero]

/-! ### Helper lemmas: fetcher -/

theorem fetchGo_first_success (net : Nat → ReqResult) (insecure : Bool)
    (body : Page) :
    ∀ (i n k : Nat) (lastErr : Option FetchErrKind) (log : List Bool),
      i < n → (∀ j, j < i → ∃ c, net (k + j) = .transient c) →
      net (k + i) = .ok body →
      fetchGo insecure net n k lastErr log =
        ⟨.ok body, log ++ List.replicate (i + 1) (!insecure)⟩ := by
  intro i
  induction i with
  | zero =>
    intro n k lastErr log hn _ hok
    obtain ⟨m, rfl⟩ : ∃ m, n = m + 1 := ⟨n - 1, by omega⟩
    have hk : net k = .ok body := by simpa using hok
    simp [fetchGo, hk]
  | succ i ih =>
    intro n k lastErr log hn hfail hok
    obtain ⟨m, rfl⟩ : ∃ m, n = m + 1 := ⟨n - 1, by omega⟩
    obtain ⟨c, hc⟩ := hfail 0 (Nat.succ_pos i)
    have hk : net k = .transient c := by simpa using hc
    simp only [fetchGo, hk]
    rw [ih m (k + 1) (some (.transient c)) (log ++ [!insecure])
      (Nat.lt_of_succ_lt_succ hn)
      (fun j hj => by
        have := hfail (j + 1) (Nat.succ_lt_succ hj)
        simpa [Nat.add_assoc, Nat.add_comm 1 j] using this)
      (by simpa [Nat.add_assoc, Nat.add_comm 1 i] using hok)]
    simp [List.replicate_succ, List.append_assoc]

theorem fetchGo_all_transient (net : Nat → ReqResult) (insecure : Bool)
    (cs : Nat → Nat) :
    ∀ (n : Nat), 0 < n →
    ∀ (k : Nat) (lastErr : Option FetchErrKind) (log : List Bool),
      (∀ j, j < n → net (k + j) = .transient (cs (k + j))) →
      fetchGo insecure net n k lastErr log =
        ⟨.error (.exhausted (some (.transient (cs (k + n - 1))))),
         log ++ List.replicate n (!insecure)⟩ := by
  intro n
  induction n with
  | zero => intro h; cases h
  | succ m ih =>
    intro _ k lastErr log hfail
    have hk : net k = .transient (cs k) := by simpa using hfail 0 (Nat.succ_pos m)
    simp only [fetchGo, hk]
    cases Nat.eq_zero_or_pos m with
    | inl h0 =>
      subst h0
      simp [fetchGo, List.replicate_succ]
    | inr hm =>
      rw [ih hm (k + 1) (some (.transient (cs k))) (log ++ [!insecure])
        (fun j hj => by
          have := hfail (j + 1) (Nat.succ_lt_succ hj)
          simpa [Nat.add_assoc, Nat.add_comm 1 j] using this)]
      have harith : k + 1 + m - 1 = k + (m + 1) - 1 := by omega
      rw [harith]
      simp [List.replicate_succ, List.append_assoc]

theorem fetchGo_requests_secure (net : Nat → ReqResult) :
    ∀ (n k : Nat) (lastErr : Option FetchErrKind) (log : List Bool) (b : Bool),
      b ∈ (fetchGo false net n k lastErr log).requests → b ∈ log ∨ b = true := by
  intro n
  induction n with
  | zero => intro k lastErr log b hb; exact Or.inl hb
  | succ m ih =>
    intro k lastErr log b hb
    simp only [fetchGo] at hb
    match hnet : net k with
    | .ok body =>
      rw [hnet] at hb
      simpa using hb
    | .ssl =>
      rw [hnet] at hb
      simp only [Bool.false_eq_true, if_false] at hb
      simpa using hb
    | .transient c =>
      rw [hnet] at hb
      rcases ih (k + 1) (some (.transient c)) (log ++ [!false]) b hb with hl | ht
      · rcases List.mem_append.mp hl with hl | hl
        · exact Or.inl hl
        · right; simpa using hl
      · exact Or.inr ht

theorem fetchGo_ssl_immediate (net : Nat → ReqResult) :
    ∀ (i n k : Nat) (lastErr : Option FetchErrKind) (log : List Bool),
      i < n → (∀ j, j < i → ∃ c, net (k + j) = .transient c) →
      net (k + i) = .ssl →
      fetchGo false net n k lastErr log =
        ⟨.error .tlsRaised, log ++ List.replicate (i + 1) true⟩ := by
  intro i
  induction i with
  | zero =>
    intro n k lastErr log hn _ hssl
    obtain ⟨m, rfl⟩ : ∃ m, n = m + 1 := ⟨n - 1, by omega⟩
    have hk : net k = .ssl := by simpa using hssl
    simp [fetchGo, hk]
  | succ i ih =>
    intro n k lastErr log hn hfail hssl
    obtain ⟨m, rfl⟩ : ∃ m, n = m + 1 := ⟨n - 1, by omega⟩
    obtain ⟨c, hc⟩ := hfail 0 (Nat.succ_pos i)
    have hk : net k = .transient c := by simpa using hc
    simp only [fetchGo, hk]
    rw [ih m (k + 1) (some (.transient c)) (log ++ [!false])
      (Nat.lt_of_succ_lt_succ hn)
      (fun j hj => by
        have := hfail (j + 1) (Nat.succ_lt_succ hj)
        simpa [Nat.add_assoc, Nat.add_comm 1 j] using this)
      (by simpa [Nat.add_assoc, Nat.add_comm 1 i] using hssl)]
    simp [List.replicate_succ, List.append_assoc]

/-- C3: `fetch_page` returns the body of the first successful attempt (having
issued exactly one request per prior transient failure); when every one of
the `retry_attempts` attempts fails transiently it fails with the line-131
error carrying the last attempt's failure; and the fails-twice-then-succeeds
stub under an attempt budget of 3 is invoked exactly 3 times and the call
succeeds. -/
theorem fetch_page_retry_correct :
    (∀ (insecure : Bool) (n : Nat) (net : Nat → ReqResult) (i : Nat) (body : Page),
       i < n → (∀ j, j < i → ∃ c, net j = .transient c) → net i = .ok body →
       (fetch_page insecure n net).result = .ok body ∧
       (fetch_page insecure n net).requests.length = i + 1) ∧
    (∀ (insecure : Bool) (n : Nat) (net : Nat → ReqResult) (cs : Nat → Nat),
       0 < n → (∀ j, j < n → net j = .transient (cs j)) →
       (fetch_page insecure n net).result =
         .error (.exhausted (some (.transient (cs (n - 1))))) ∧
       (fetch_page insecure n net).requests.length = n) ∧
    (∀ body : Page,
       (fetch_page false 3
           (fun k => if k < 2 then .transient k else .ok body)).result =
         .ok body ∧
       (fetch_page false 3
           (fun k => if k < 2 then .transient k else .ok body)).requests.length
         = 3) := by
  refine ⟨?_, ?_, ?_⟩
  · intro insecure n net i body hn hfail hok
    rw [fetch_page,
      fetchGo_first_success net insecure body i n 0 none [] hn
        (by simpa using hfail) (by simpa using hok)]
    simp
  · intro insecure n net cs hn hfail
    rw [fetch_page,
      fetchGo_all_transient net insecure cs n hn 0 none []
        (by simpa using hfail)]
    simp
  · intro body
    rw [fetch_page,
      fetchGo_first_success (fun k => if k < 2 then .transient k else .ok body)
        false body 2 3 0 none [] (by omega)
        (fun j hj => ⟨j, by simp [hj]⟩) (by simp)]
    simp

/-- Witness for C3: the fails-twice-then-succeeds stub, plus an
all-transient stub of budget 2 whose reported last error is that of its
second attempt. -/
theorem fetch_page_retry_correct_witness :
    ((fetch_page false 3
        (fun k => if k < 2 then .transient k else .ok ⟨some 1, none, []⟩)).result
      = .ok ⟨some 1, none, []⟩ ∧
     (fetch_page false 3
        (fun k => if k < 2 then .transient k else .ok ⟨some 1, none, []⟩)).requests.length
      = 3) ∧
    (fetch_page true 2 (fun k => .transient (k + 10))).result =
      .error (.exhausted (some (.transient 11))) ∧
    (fetch_page true 2 (fun k => .transient (k + 10))).requests.length = 2 := by
  refine ⟨?_, ?_⟩
  · exact fetch_page_retry_correct.1 false 3
      (fun k => if k < 2 then .transient k else .ok ⟨some 1, none, []⟩) 2
      ⟨some 1, none, []⟩ (by omega) (fun j hj => ⟨j, by simp [hj]⟩) (by simp)
  · exact fetch_page_retry_correct.2.1 true 2 (fun k => .transient (k + 10))
      (fun k => k + 10) (by omega) (fun j _ => rfl)

/-- C4: with the insecure flag unset no request ever bypasses TLS
verification (every issued request has `verify = true`), and a TLS
verification failure is fatal at once: the attempt where it occurs is the
last, with no insecure retry and no further attempt of any kind. -/
theorem fetch_page_tls_policy :
    (∀ (n : Nat) (net : Nat → ReqResult) (b : Bool),
       b ∈ (fetch_page false n net).requests → b = true) ∧
    (∀ (n : Nat) (net : Nat → ReqResult) (i : Nat),
       i < n → (∀ j, j < i → ∃ c, net j = .transient c) → net i = .ssl →
       (fetch_page false n net).result = .error .tlsRaised ∧
       (fetch_page false n net).requests.length = i + 1) := by
  refine ⟨?_, ?_⟩
  · intro n net b hb
    rcases fetchGo_requests_secure net n 0 none [] b hb with hl | ht
    · cases hl
    · exact ht
  · intro n net i hn hfail hssl
    rw [fetch_page,
      fetchGo_ssl_immediate net i n 0 none [] hn
        (by simpa using hfail) (by simpa using hssl)]
    simp

/-- Witness for C4: a network whose first answer is a TLS failure, with
insecure mode disabled: one request, `verify = true`, immediate TLS error. -/
theorem fetch_page_tls_policy_witness :
    true = true ∧
    (fetch_page false 3 (fun _ => .ssl)).result = .error .tlsRaised ∧
    (fetch_page false 3 (fun _ => .ssl)).requests.length = 1 :=
  ⟨fetch_page_tls_policy.1 3 (fun _ => .ssl) true (by
      rw [fetch_page, show fetchGo false (fun _ => .ssl) 3 0 none [] =
        ⟨.error .tlsRaised, [true]⟩ from rfl]
      exact List.mem_singleton.mpr rfl),
   fetch_page_tls_policy.2 3 (fun _ => .ssl) 0 (by omega)
     (fun j hj => absurd hj (Nat.not_lt_zero j)) rfl⟩

/-! ### Helper lemmas: category buckets -/

theorem catsDorks_mapUpdate (cid : Int) (r : Row) (cats : List CatEntry) :
    catsDorks (cats.map (fun c =>
        if c.cid == cid then { c with dorks := c.dorks ++ [r] } else c)) cid =
      if cats.any (fun c => c.cid == cid) then catsDorks cats cid ++ [r]
      else catsDorks cats cid := by
  induction cats with
  | nil => simp [catsDorks]
  | cons c cs ih =>
    by_cases hc : (c.cid == cid) = true
    · rw [List.map_cons, if_pos hc]
      unfold catsDorks
      rw [List.find?_cons_of_pos (p := fun (c : CatEntry) => c.cid == cid) _ (by simpa using hc),
        List.find?_cons_of_pos (p := fun (c : CatEntry) => c.cid == cid) _ hc]
      simp [List.any_cons, hc]
    · rw [List.map_cons, if_neg hc]
      unfold catsDorks
      rw [List.find?_cons_of_neg (p := fun (c : CatEntry) => c.cid == cid) _ (by simpa using hc),
        List.find?_cons_of_neg (p := fun (c : CatEntry) => c.cid == cid) _ (by simpa using hc)]
      have := ih
      unfold catsDorks at this
      rw [this]
      simp [List.any_cons, hc]

theorem catsDorks_addToCat (cats : List CatEntry) (cid : Int) (cname : String)
    (r : Row) :
    catsDorks (addToCat cats cid cname r) cid = catsDorks cats cid ++ [r] := by
  unfold addToCat
  by_cases h : cats.any (fun c => c.cid == cid) = true
  · rw [if_pos h, catsDorks_mapUpdate, if_pos h]
  · rw [if_neg h]
    have hnone : cats.find? (fun c => c.cid == cid) = none := by
      rw [List.find?_eq_none]
      intro x hx hpx
      exact h (List.any_eq_true.mpr ⟨x, hx, hpx⟩)
    unfold catsDorks
    rw [List.find?_append, hnone]
    simp [List.find?]

/-- C10: a row whose anchor exists but whose text strips to the empty string
is still appended to its category's bucket — and the per-category file gains
a blank line for it — while contributing nothing to the (pre-dedupe)
extracted list; a row with no usable anchor leaves the state entirely
unchanged. -/
theorem blank_dork_row_handling :
    (∀ (st : CState) (r : Row) (raw : String),
       r.anchorText = some raw → pythonStrip raw = "" →
       (processRow st r).extracted = st.extracted ∧
       catsDorks (processRow st r).cats (effCid r) =
         catsDorks st.cats (effCid r) ++ [r] ∧
       categoryFileLines (catsDorks (processRow st r).cats (effCid r)) =
         categoryFileLines (catsDorks st.cats (effCid r)) ++ [""]) ∧
    (∀ (st : CState) (r : Row), r.anchorText = none → processRow st r = st) := by
  constructor
  · intro st r raw ha hstrip
    have hrow : processRow st r =
        ⟨st.extracted, addToCat st.cats (effCid r) (effCname r) r⟩ := by
      unfold processRow
      rw [ha]
      simp [hstrip]
    refine ⟨by rw [hrow], ?_, ?_⟩
    · rw [hrow]
      exact catsDorks_addToCat st.cats (effCid r) (effCname r) r
    · rw [hrow]
      show categoryFileLines (catsDorks (addToCat st.cats (effCid r) (effCname r) r) (effCid r)) = _
      rw [catsDorks_addToCat]
      unfold categoryFileLines
      rw [List.filterMap_append]
      simp [rowText, ha, hstrip]
  · intro st r h
    unfold processRow
    rw [h]

/-- Witness for C10: a whitespace-only anchor row lands in bucket 5 and adds
a blank line to its category file but no extracted dork; an anchorless row
changes nothing. -/
theorem blank_dork_row_handling_witness :
    ((processRow ⟨[], []⟩ ⟨some " ", some 5, some "X"⟩).extracted = [] ∧
     catsDorks (processRow ⟨[], []⟩ ⟨some " ", some 5, some "X"⟩).cats
         (effCid ⟨some " ", some 5, some "X"⟩) =
       catsDorks [] (effCid ⟨some " ", some 5, some "X"⟩) ++
         [⟨some " ", some 5, some "X"⟩] ∧
     categoryFileLines
         (catsDorks (processRow ⟨[], []⟩ ⟨some " ", some 5, some "X"⟩).cats
           (effCid ⟨some " ", some 5, some "X"⟩)) =
       categoryFileLines
           (catsDorks [] (effCid ⟨some " ", some 5, some "X"⟩)) ++ [""]) ∧
    processRow ⟨["e"], []⟩ ⟨none, some 1, some "Y"⟩ = ⟨["e"], []⟩ :=
  ⟨blank_dork_row_handling.1 ⟨[], []⟩ ⟨some " ", some 5, some "X"⟩ " " rfl
      (by decide),
   blank_dork_row_handling.2 ⟨["e"], []⟩ ⟨none, some 1, some "Y"⟩ rfl⟩

/-! ### Helper lemmas: CSV attribution -/

theorem lookupCat_append_single (m : List (String × Int × String))
    (e : String × Int × String) (s : String) :
    lookupCat (m ++ [e]) s =
      (lookupCat m s).or (if e.1 == s then some e.2 else none) := by
  unfold lookupCat
  rw [List.find?_append]
  cases h : m.find? (fun x => x.1 == s) with
  | some x => simp [Option.or]
  | none =>
    by_cases he : (e.1 == s) = true
    · simp [Option.or, List.find?, he]
    · simp only [Bool.not_eq_true] at he
      simp [Option.or, List.find?, he]

theorem buildGo_lookup (s : String) (hs : s ≠ "") :
    ∀ (pairs : List (Int × String × Row)) (m : List (String × Int × String)),
      lookupCat (buildGo m pairs) s =
        (lookupCat m s).or (firstCategoryIn pairs s) := by
  intro pairs
  induction pairs with
  | nil =>
    intro m
    simp [buildGo, firstCategoryIn, List.find?]
  | cons q rest ih =>
    obtain ⟨cid, cname, r⟩ := q
    intro m
    cases hr : rowText r with
    | none =>
      have hstep : buildGo m ((cid, cname, r) :: rest) = buildGo m rest := by
        simp only [buildGo, hr]
      rw [hstep, ih m]
      unfold firstCategoryIn
      rw [List.find?_cons_of_neg _ (by simp [hr])]
    | some s0 =>
      by_cases hs0 : s0 = s
      · subst hs0
        cases hm : lookupCat m s0 with
        | some v =>
          have hstep : buildGo m ((cid, cname, r) :: rest) = buildGo m rest := by
            simp only [buildGo, hr]
            rw [if_neg (by simp [hm])]
          rw [hstep, ih m, hm]
          rfl
        | none =>
          have hstep : buildGo m ((cid, cname, r) :: rest) =
              buildGo (m ++ [(s0, cid, cname)]) rest := by
            simp only [buildGo, hr]
            rw [if_pos (by simp [hs, hm])]
          rw [hstep, ih (m ++ [(s0, cid, cname)]), lookupCat_append_single, hm]
          unfold firstCategoryIn
          rw [List.find?_cons_of_pos _ (by simp [hr])]
          simp [Option.or]
      · have hrw : firstCategoryIn ((cid, cname, r) :: rest) s =
            firstCategoryIn rest s := by
          unfold firstCategoryIn
          rw [List.find?_cons_of_neg _ (by simp [hr, hs0])]
        rw [hrw]
        cases hm : lookupCat m s0 with
        | some v =>
          have hstep : buildGo m ((cid, cname, r) :: rest) = buildGo m rest := by
            simp only [buildGo, hr]
            rw [if_neg (by simp [hm])]
          rw [hstep, ih m]
        | none =>
          by_cases hempty : s0 = ""
          · have hstep : buildGo m ((cid, cname, r) :: rest) = buildGo m rest := by
              simp only [buildGo, hr]
              rw [if_neg (by simp [hempty])]
            rw [hstep, ih m]
          · have hstep : buildGo m ((cid, cname, r) :: rest) =
                buildGo (m ++ [(s0, cid, cname)]) rest := by
              simp only [buildGo, hr]
              rw [if_pos (by simp [hempty, hm])]
            rw [hstep, ih (m ++ [(s0, cid, cname)]), lookupCat_append_single]
            rw [show ((s0, cid, cname).1 == s) = false from by simpa using hs0]
            simp [Option.or_none]

/-- C1 counterexample: on the run over rows
`x@cat1, y@cat2, y@cat1` the CSV attributes `"y"` to category `(1, "A")` —
because the `dork_to_cat` scan walks `category_dict` category by category —
while the first category containing `"y"` in the ORIGINAL row-scan order is
`(2, "B")`; the row `("y", 2, "B")` the claim demands is absent. -/
theorem csv_first_scan_counterexample :
    runCollector [⟨some 3, none,
        [⟨some "x", some 1, some "A"⟩, ⟨some "y", some 2, some "B"⟩,
         ⟨some "y", some 1, some "A"⟩]⟩] none =
      .ok ⟨3, ["x", "y"],
        [⟨1, "A", [⟨some "x", some 1, some "A"⟩, ⟨some "y", some 1, some "A"⟩]⟩,
         ⟨2, "B", [⟨some "y", some 2, some "B"⟩]⟩], 1, [0]⟩ ∧
    csvDataRows ["x", "y"]
        [⟨1, "A", [⟨some "x", some 1, some "A"⟩, ⟨some "y", some 1, some "A"⟩]⟩,
         ⟨2, "B", [⟨some "y", some 2, some "B"⟩]⟩] =
      [("x", 1, "A"), ("y", 1, "A")] ∧
    rowScanFirstCategory
        [⟨some "x", some 1, some "A"⟩, ⟨some "y", some 2, some "B"⟩,
         ⟨some "y", some 1, some "A"⟩] "y" = some (2, "B") ∧
    (("y", (2 : Int), "B") ∈
        [(("x" : String), (1 : Int), "A"), ("y", 1, "A")]) = False := by
  refine ⟨by rfl, by rfl, by rfl, by simp⟩

/-- C1 (amended): the CSV export emits exactly one data row per entry of the
deduplicated list, in order (`map Prod.fst` returns the list itself); the
category attributed to a (non-empty) string is the first category containing
it in the GROUPED scan the code performs — `category_dict` in first-seen
order, each bucket in arrival order — which need not be the first category of
the original row scan; a string the lookup cannot attribute gets
`(-1, "unknown")`. -/
theorem csv_rows_attribution (extracted : List String) (cats : List CatEntry) :
    (csvDataRows extracted cats).map Prod.fst = extracted ∧
    (∀ s : String, s ≠ "" →
      lookupCat (dork_to_cat cats) s = groupedFirstCategory cats s) ∧
    (∀ s ∈ extracted, lookupCat (dork_to_cat cats) s = none →
      (s, -1, "unknown") ∈ csvDataRows extracted cats) := by
  refine ⟨?_, ?_, ?_⟩
  · unfold csvDataRows
    rw [List.map_map]
    apply List.map_id''
    intro d
    cases h : lookupCat (dork_to_cat cats) d with
    | some v => obtain ⟨cid, cname⟩ := v; simp [h]
    | none => simp [h]
  · intro s hs
    unfold dork_to_cat groupedFirstCategory
    rw [buildGo_lookup s hs (catPairs cats) []]
    rw [show lookupCat [] s = none from rfl]
    rfl
  · intro s hsm hnone
    unfold csvDataRows
    exact List.mem_map.mpr ⟨s, hsm, by rw [hnone]⟩

/-- Witness for C1's amended theorem: a catalog with one category holding
dork `"x"`, and an extracted list also holding `"q"` which no category can
explain and which is therefore attributed `(-1, "unknown")`. -/
theorem csv_rows_attribution_witness :
    (csvDataRows ["x", "q"]
        [⟨1, "A", [⟨some "x", some 1, some "A"⟩]⟩]).map Prod.fst = ["x", "q"] ∧
    lookupCat (dork_to_cat [⟨1, "A", [⟨some "x", some 1, some "A"⟩]⟩]) "x" =
      groupedFirstCategory [⟨1, "A", [⟨some "x", some 1, some "A"⟩]⟩] "x" ∧
    ("q", -1, "unknown") ∈
      csvDataRows ["x", "q"] [⟨1, "A", [⟨some "x", some 1, some "A"⟩]⟩] :=
  ⟨(csv_rows_attribution ["x", "q"]
      [⟨1, "A", [⟨some "x", some 1, some "A"⟩]⟩]).1,
   (csv_rows_attribution ["x", "q"]
      [⟨1, "A", [⟨some "x", some 1, some "A"⟩]⟩]).2.1 "x" (by decide),
   (csv_rows_attribution ["x", "q"]
      [⟨1, "A", [⟨some "x", some 1, some "A"⟩]⟩]).2.2 "q" (by decide) (by rfl)⟩

end UpdateDorks
